import Mathlib

/-!
Verification of the recursive-descent parser in src/src/lang/parser.rs.

The parser is embedded shallowly: the token cursor becomes pure functions
over a token list and a cursor index, the mutually recursive parsing
routines become fuel-indexed total functions, and a Rust panic becomes the
result Res.fatal.  Running out of fuel (Res.fuelOut) is a model artifact;
the Rust routines have no such case.
-/

namespace Lox

/-- Modelled from the spec: the token-kind enumeration of section 6.  The
file src/src/lang/token.rs is not part of the sources, so the closed set of
kinds (including NIL, which the parser never matches) is taken from the
spec word for word. -/
inductive TokenType where
  | LEFT_PAREN
  | RIGHT_PAREN
  | LEFT_BRACE
  | RIGHT_BRACE
  | COMMA
  | MINUS
  | PLUS
  | SLASH
  | STAR
  | BANG
  | BANG_EQUAL
  | EQUAL
  | EQUAL_EQUAL
  | GREATER
  | GREATER_EQUAL
  | LESS
  | LESS_EQUAL
  | NUMBER
  | STRING
  | TRUE
  | FALSE
  | NIL
  | IDENTIFIER
  | IF
  | ELSE
  | PRINT
  | VAR
  | FUNCTION
deriving DecidableEq, Repr

/-- Modelled from the spec: the literal value union of section 3
(number, string, boolean, nil); src/src/lang/token.rs is not in the
sources.  The spec says numbers are 64-bit floats; no claim computes with
numeric values, so the payload is represented by an integer to keep
equality decidable. -/
inductive Object where
  | Num (n : Int)
  | Str (s : String)
  | Bool (b : Bool)
  | Nil
deriving DecidableEq, Repr

/-- Modelled from the spec: a token record of section 3 with the field
names the parser source uses (tag, literal) plus lexeme and line. -/
structure Token where
  tag : TokenType
  lexeme : String
  literal : Object
  line : Nat
deriving DecidableEq, Repr

/-- The Expression AST of src/src/lang/ast.rs as used by the parser. -/
inductive Expression where
  | Literal (value : Object)
  | Grouping (inner : Expression)
  | Unary (op : Token) (right : Expression)
  | Binary (left : Expression) (op : Token) (right : Expression)
  | Var (name : Token)
  | Assignment (name : Token) (value : Expression)
  | Call (callee : Expression) (paren : Token) (args : List Expression)
  | Mark

/-- The Statement AST of src/src/lang/ast.rs as used by the parser. -/
inductive Statement where
  | Expression (e : Lox.Expression)
  | Print (e : Lox.Expression)
  | Var (name : Token) (init : Lox.Expression)
  | Block (stmts : List Statement)
  | If (cond : Lox.Expression) (thenBranch : Statement) (elseBranch : Option Statement)
  | Function (name : Token) (params : List Token) (body : List Statement)

/-- Result of a parsing routine: a value together with the new cursor, a
fatal failure (a Rust panic), or fuel exhaustion (model artifact only). -/
inductive Res (α : Type) where
  | ok (value : α) (cur : Nat)
  | fatal
  | fuelOut

/-- Parser.is_at_end: current == tokens.len(). -/
def isAtEnd (ts : List Token) (cur : Nat) : Bool :=
  cur == ts.length

/-- Parser.peek: tokens.get(current); none models the unwrap panic. -/
def peekT (ts : List Token) (cur : Nat) : Option Token :=
  ts[cur]?

/-- Parser.previous: tokens.get(current - 1); none models the unwrap panic,
including the usize underflow when current is 0. -/
def previousT (ts : List Token) (cur : Nat) : Option Token :=
  if cur = 0 then none else ts[cur - 1]?

/-- Parser.check: false at end, otherwise peek().tag == tag.  The out of
range peek panic is unreachable here because not at end together with the
reachable bound cur <= tokens.len() gives cur < tokens.len(). -/
def checkT (ts : List Token) (cur : Nat) (tag : TokenType) : Bool :=
  if isAtEnd ts cur then false
  else
    match peekT ts cur with
    | some t => t.tag == tag
    | none => false

/-- Parser.advance: increments current when not at end, and returns
previous() of the new cursor together with the new cursor. -/
def advanceT (ts : List Token) (cur : Nat) : Option Token × Nat :=
  let cur1 := if isAtEnd ts cur then cur else cur + 1
  (previousT ts cur1, cur1)

/-- Parser.expect (match-any-of): if any kind checks, advance and return
true, else return false without moving. -/
def expectT (ts : List Token) (cur : Nat) (tags : List TokenType) : Bool × Nat :=
  if tags.any (fun t => checkT ts cur t) then (true, (advanceT ts cur).2)
  else (false, cur)

/-- Parser.consume (consume-or-fail): on check, advance and return the
consumed token; otherwise panic. -/
def consumeT (ts : List Token) (cur : Nat) (tag : TokenType) : Res Token :=
  if checkT ts cur tag then
    match advanceT ts cur with
    | (some t, cur1) => .ok t cur1
    | (none, _) => .fatal
  else .fatal

mutual

/-- Parser.declaration. -/
def declaration (ts : List Token) : Nat → Nat → Res Statement
  | 0, _ => .fuelOut
  | fuel + 1, cur =>
    let rFn := expectT ts cur [.FUNCTION]
    if rFn.1 then function ts fuel rFn.2
    else
      let rVar := expectT ts cur [.VAR]
      if rVar.1 then var ts fuel rVar.2
      else statement ts fuel cur
termination_by structural fuel _ => fuel

/-- Parser.statement. -/
def statement (ts : List Token) : Nat → Nat → Res Statement
  | 0, _ => .fuelOut
  | fuel + 1, cur =>
    let rIf := expectT ts cur [.IF]
    if rIf.1 then ifstmt ts fuel rIf.2
    else
      let rPr := expectT ts cur [.PRINT]
      if rPr.1 then print ts fuel rPr.2
      else
        let rBr := expectT ts cur [.LEFT_BRACE]
        if rBr.1 then
          match block ts fuel rBr.2 with
          | .ok stmts cur1 => .ok (.Block stmts) cur1
          | .fatal => .fatal
          | .fuelOut => .fuelOut
        else expression_statement ts fuel cur
termination_by structural fuel _ => fuel

/-- Parser.block: the while loop collecting declarations, then the
consume of RIGHT_BRACE, expressed by recursion on fuel. -/
def block (ts : List Token) : Nat → Nat → Res (List Statement)
  | 0, _ => .fuelOut
  | fuel + 1, cur =>
    if !checkT ts cur .RIGHT_BRACE && !isAtEnd ts cur then
      match declaration ts fuel cur with
      | .ok s cur1 =>
        match block ts fuel cur1 with
        | .ok rest cur2 => .ok (s :: rest) cur2
        | .fatal => .fatal
        | .fuelOut => .fuelOut
      | .fatal => .fatal
      | .fuelOut => .fuelOut
    else
      match consumeT ts cur .RIGHT_BRACE with
      | .ok _ cur1 => .ok [] cur1
      | .fatal => .fatal
      | .fuelOut => .fatal
termination_by structural fuel _ => fuel

/-- Parser.expression_statement. -/
def expression_statement (ts : List Token) : Nat → Nat → Res Statement
  | 0, _ => .fuelOut
  | fuel + 1, cur =>
    match expression ts fuel cur with
    | .ok e cur1 => .ok (.Expression e) cur1
    | .fatal => .fatal
    | .fuelOut => .fuelOut

/-- Parser.print. -/
def print (ts : List Token) : Nat → Nat → Res Statement
  | 0, _ => .fuelOut
  | fuel + 1, cur =>
    match expression ts fuel cur with
    | .ok value cur1 => .ok (.Print value) cur1
    | .fatal => .fatal
    | .fuelOut => .fuelOut

/-- Parser.ifstmt. -/
def ifstmt (ts : List Token) : Nat → Nat → Res Statement
  | 0, _ => .fuelOut
  | fuel + 1, cur =>
    match consumeT ts cur .LEFT_PAREN with
    | .ok _ cur1 =>
      match expression ts fuel cur1 with
      | .ok condition cur2 =>
        match consumeT ts cur2 .RIGHT_PAREN with
        | .ok _ cur3 =>
          match statement ts fuel cur3 with
          | .ok thenBlock cur4 =>
            let rElse := expectT ts cur4 [.ELSE]
            if rElse.1 then
              match statement ts fuel rElse.2 with
              | .ok elseBlock cur5 => .ok (.If condition thenBlock (some elseBlock)) cur5
              | .fatal => .fatal
              | .fuelOut => .fuelOut
            else .ok (.If condition thenBlock none) cur4
          | .fatal => .fatal
          | .fuelOut => .fuelOut
        | _ => .fatal
      | .fatal => .fatal
      | .fuelOut => .fuelOut
    | _ => .fatal
termination_by structural fuel _ => fuel

/-- Parser.var: a missing EQUAL after the name is the panic
with message var error. -/
def var (ts : List Token) : Nat → Nat → Res Statement
  | 0, _ => .fuelOut
  | fuel + 1, cur =>
    match consumeT ts cur .IDENTIFIER with
    | .ok name cur1 =>
      let rEq := expectT ts cur1 [.EQUAL]
      if rEq.1 then
        match expression ts fuel rEq.2 with
        | .ok init cur2 => .ok (.Var name init) cur2
        | .fatal => .fatal
        | .fuelOut => .fuelOut
      else .fatal
    | _ => .fatal

/-- Parser.function. -/
def function (ts : List Token) : Nat → Nat → Res Statement
  | 0, _ => .fuelOut
  | fuel + 1, cur =>
    match consumeT ts cur .IDENTIFIER with
    | .ok name cur1 =>
      match consumeT ts cur1 .LEFT_PAREN with
      | .ok _ cur2 =>
        let pr : Res (List Token) :=
          if !checkT ts cur2 .RIGHT_PAREN then params ts fuel cur2
          else .ok [] cur2
        match pr with
        | .ok parameters cur3 =>
          match consumeT ts cur3 .RIGHT_PAREN with
          | .ok _ cur4 =>
            match consumeT ts cur4 .LEFT_BRACE with
            | .ok _ cur5 =>
              match block ts fuel cur5 with
              | .ok body cur6 => .ok (.Function name parameters body) cur6
              | .fatal => .fatal
              | .fuelOut => .fuelOut
            | _ => .fatal
          | _ => .fatal
        | .fatal => .fatal
        | .fuelOut => .fuelOut
      | _ => .fatal
    | _ => .fatal
termination_by structural fuel _ => fuel

/-- The parameter loop inside Parser.function: push a consumed
IDENTIFIER, continue while a COMMA is matched. -/
def params (ts : List Token) : Nat → Nat → Res (List Token)
  | 0, _ => .fuelOut
  | fuel + 1, cur =>
    match consumeT ts cur .IDENTIFIER with
    | .ok p cur1 =>
      let rC := expectT ts cur1 [.COMMA]
      if rC.1 then
        match params ts fuel rC.2 with
        | .ok rest cur2 => .ok (p :: rest) cur2
        | .fatal => .fatal
        | .fuelOut => .fuelOut
      else .ok [p] cur1
    | _ => .fatal
termination_by structural fuel _ => fuel

/-- Parser.expression: delegates to assignment. -/
def expression (ts : List Token) : Nat → Nat → Res Expression
  | 0, _ => .fuelOut
  | fuel + 1, cur => assignment ts fuel cur
termination_by structural fuel _ => fuel

/-- Parser.assignment: parse an equality, and when an EQUAL follows,
recursively parse the right hand side; a non Var left hand side is the
panic with message invalid assignment (raised after the right hand side
is parsed, as in the source). -/
def assignment (ts : List Token) : Nat → Nat → Res Expression
  | 0, _ => .fuelOut
  | fuel + 1, cur =>
    match equality ts fuel cur with
    | .ok expr cur1 =>
      let rEq := expectT ts cur1 [.EQUAL]
      if rEq.1 then
        match assignment ts fuel rEq.2 with
        | .ok value cur2 =>
          match expr with
          | .Var token => .ok (.Assignment token value) cur2
          | _ => .fatal
        | .fatal => .fatal
        | .fuelOut => .fuelOut
      else .ok expr cur1
    | .fatal => .fatal
    | .fuelOut => .fuelOut
termination_by structural fuel _ => fuel

/-- Parser.equality. -/
def equality (ts : List Token) : Nat → Nat → Res Expression
  | 0, _ => .fuelOut
  | fuel + 1, cur =>
    match comparison ts fuel cur with
    | .ok expr cur1 => eqLoop ts fuel expr cur1
    | .fatal => .fatal
    | .fuelOut => .fuelOut
termination_by structural fuel _ => fuel

/-- The while loop of Parser.equality. -/
def eqLoop (ts : List Token) : Nat → Expression → Nat → Res Expression
  | 0, _, _ => .fuelOut
  | fuel + 1, expr, cur =>
    let r := expectT ts cur [.BANG_EQUAL, .EQUAL_EQUAL]
    if r.1 then
      match previousT ts r.2 with
      | some op =>
        match comparison ts fuel r.2 with
        | .ok cmp cur1 => eqLoop ts fuel (.Binary expr op cmp) cur1
        | .fatal => .fatal
        | .fuelOut => .fuelOut
      | none => .fatal
    else .ok expr cur
termination_by structural fuel _ _ => fuel

/-- Parser.comparison. -/
def comparison (ts : List Token) : Nat → Nat → Res Expression
  | 0, _ => .fuelOut
  | fuel + 1, cur =>
    match term ts fuel cur with
    | .ok expr cur1 => cmpLoop ts fuel expr cur1
    | .fatal => .fatal
    | .fuelOut => .fuelOut
termination_by structural fuel _ => fuel

/-- The while loop of Parser.comparison. -/
def cmpLoop (ts : List Token) : Nat → Expression → Nat → Res Expression
  | 0, _, _ => .fuelOut
  | fuel + 1, expr, cur =>
    let r := expectT ts cur [.GREATER, .GREATER_EQUAL, .LESS, .LESS_EQUAL]
    if r.1 then
      match previousT ts r.2 with
      | some op =>
        match term ts fuel r.2 with
        | .ok right cur1 => cmpLoop ts fuel (.Binary expr op right) cur1
        | .fatal => .fatal
        | .fuelOut => .fuelOut
      | none => .fatal
    else .ok expr cur
termination_by structural fuel _ _ => fuel

/-- Parser.term. -/
def term (ts : List Token) : Nat → Nat → Res Expression
  | 0, _ => .fuelOut
  | fuel + 1, cur =>
    match factor ts fuel cur with
    | .ok expr cur1 => termLoop ts fuel expr cur1
    | .fatal => .fatal
    | .fuelOut => .fuelOut
termination_by structural fuel _ => fuel

/-- The while loop of Parser.term. -/
def termLoop (ts : List Token) : Nat → Expression → Nat → Res Expression
  | 0, _, _ => .fuelOut
  | fuel + 1, expr, cur =>
    let r := expectT ts cur [.MINUS, .PLUS]
    if r.1 then
      match previousT ts r.2 with
      | some op =>
        match factor ts fuel r.2 with
        | .ok right cur1 => termLoop ts fuel (.Binary expr op right) cur1
        | .fatal => .fatal
        | .fuelOut => .fuelOut
      | none => .fatal
    else .ok expr cur
termination_by structural fuel _ _ => fuel

/-- Parser.factor. -/
def factor (ts : List Token) : Nat → Nat → Res Expression
  | 0, _ => .fuelOut
  | fuel + 1, cur =>
    match unary ts fuel cur with
    | .ok expr cur1 => factorLoop ts fuel expr cur1
    | .fatal => .fatal
    | .fuelOut => .fuelOut
termination_by structural fuel _ => fuel

/-- The while loop of Parser.factor. -/
def factorLoop (ts : List Token) : Nat → Expression → Nat → Res Expression
  | 0, _, _ => .fuelOut
  | fuel + 1, expr, cur =>
    let r := expectT ts cur [.SLASH, .STAR]
    if r.1 then
      match previousT ts r.2 with
      | some op =>
        match unary ts fuel r.2 with
        | .ok right cur1 => factorLoop ts fuel (.Binary expr op right) cur1
        | .fatal => .fatal
        | .fuelOut => .fuelOut
      | none => .fatal
    else .ok expr cur
termination_by structural fuel _ _ => fuel

/-- Parser.unary. -/
def unary (ts : List Token) : Nat → Nat → Res Expression
  | 0, _ => .fuelOut
  | fuel + 1, cur =>
    let r := expectT ts cur [.BANG, .MINUS]
    if r.1 then
      match previousT ts r.2 with
      | some op =>
        match unary ts fuel r.2 with
        | .ok right cur1 => .ok (.Unary op right) cur1
        | .fatal => .fatal
        | .fuelOut => .fuelOut
      | none => .fatal
    else call ts fuel cur
termination_by structural fuel _ => fuel

/-- Parser.call. -/
def call (ts : List Token) : Nat → Nat → Res Expression
  | 0, _ => .fuelOut
  | fuel + 1, cur =>
    match primary ts fuel cur with
    | .ok expr cur1 => callLoop ts fuel expr cur1
    | .fatal => .fatal
    | .fuelOut => .fuelOut
termination_by structural fuel _ => fuel

/-- The loop of Parser.call: wrap while a LEFT_PAREN is matched. -/
def callLoop (ts : List Token) : Nat → Expression → Nat → Res Expression
  | 0, _, _ => .fuelOut
  | fuel + 1, expr, cur =>
    let r := expectT ts cur [.LEFT_PAREN]
    if r.1 then
      match finish_call ts fuel expr r.2 with
      | .ok expr1 cur1 => callLoop ts fuel expr1 cur1
      | .fatal => .fatal
      | .fuelOut => .fuelOut
    else .ok expr cur
termination_by structural fuel _ _ => fuel

/-- Parser.finish_call. -/
def finish_call (ts : List Token) : Nat → Expression → Nat → Res Expression
  | 0, _, _ => .fuelOut
  | fuel + 1, callee, cur =>
    let ar : Res (List Expression) :=
      if !checkT ts cur .RIGHT_PAREN then arguments ts fuel cur
      else .ok [] cur
    match ar with
    | .ok args cur1 =>
      match consumeT ts cur1 .RIGHT_PAREN with
      | .ok paren cur2 => .ok (.Call callee paren args) cur2
      | _ => .fatal
    | .fatal => .fatal
    | .fuelOut => .fuelOut
termination_by structural fuel _ _ => fuel

/-- The argument loop inside Parser.finish_call: push an expression,
continue while a COMMA is matched. -/
def arguments (ts : List Token) : Nat → Nat → Res (List Expression)
  | 0, _ => .fuelOut
  | fuel + 1, cur =>
    match expression ts fuel cur with
    | .ok e cur1 =>
      let rC := expectT ts cur1 [.COMMA]
      if rC.1 then
        match arguments ts fuel rC.2 with
        | .ok rest cur2 => .ok (e :: rest) cur2
        | .fatal => .fatal
        | .fuelOut => .fuelOut
      else .ok [e] cur1
    | .fatal => .fatal
    | .fuelOut => .fuelOut
termination_by structural fuel _ => fuel

/-- Parser.primary: the five match alternatives, with the Mark sentinel
as the silent fallthrough. -/
def primary (ts : List Token) : Nat → Nat → Res Expression
  | 0, _ => .fuelOut
  | fuel + 1, cur =>
    let rF := expectT ts cur [.FALSE]
    if rF.1 then .ok (.Literal (.Bool false)) rF.2
    else
      let rT := expectT ts cur [.TRUE]
      if rT.1 then .ok (.Literal (.Bool true)) rT.2
      else
        let rN := expectT ts cur [.NUMBER, .STRING]
        if rN.1 then
          match previousT ts rN.2 with
          | some t => .ok (.Literal t.literal) rN.2
          | none => .fatal
        else
          let rP := expectT ts cur [.LEFT_PAREN]
          if rP.1 then
            match expression ts fuel rP.2 with
            | .ok e cur1 =>
              match consumeT ts cur1 .RIGHT_PAREN with
              | .ok _ cur2 => .ok (.Grouping e) cur2
              | _ => .fatal
            | .fatal => .fatal
            | .fuelOut => .fuelOut
          else
            let rI := expectT ts cur [.IDENTIFIER]
            if rI.1 then
              match previousT ts rI.2 with
              | some t => .ok (.Var t) rI.2
              | none => .fatal
            else .ok .Mark cur
termination_by structural fuel _ => fuel

end

/-- Parser.parse: the top level while loop, pushing declarations until
at end, expressed by recursion on fuel. -/
def parse (ts : List Token) : Nat → Nat → Res (List Statement)
  | 0, _ => .fuelOut
  | fuel + 1, cur =>
    if isAtEnd ts cur then .ok [] cur
    else
      match declaration ts fuel cur with
      | .ok s cur1 =>
        match parse ts fuel cur1 with
        | .ok rest cur2 => .ok (s :: rest) cur2
        | .fatal => .fatal
        | .fuelOut => .fuelOut
      | .fatal => .fatal
      | .fuelOut => .fuelOut
termination_by structural fuel _ => fuel

/-- Test for the Var variant of Expression, used to state the invalid
assignment target condition. -/
def isVarE : Expression → Bool
  | .Var _ => true
  | _ => false

theorem checkT_true {ts : List Token} {cur : Nat} {tag : TokenType}
    (h : checkT ts cur tag = true) :
    isAtEnd ts cur = false ∧ ∃ t, ts[cur]? = some t ∧ t.tag = tag := by
  unfold checkT at h
  split at h
  · simp at h
  · next hE =>
    refine ⟨by simpa using hE, ?_⟩
    unfold peekT at h
    split at h
    · next t ht => exact ⟨t, ht, by simpa using h⟩
    · simp at h

theorem checkT_of_peek {ts : List Token} {cur : Nat} {t : Token} {tag : TokenType}
    (hg : ts[cur]? = some t) (ht : t.tag = tag) : checkT ts cur tag = true := by
  rcases List.getElem?_eq_some.mp hg with ⟨hlt, _⟩
  have hE : isAtEnd ts cur = false := by
    simp [isAtEnd, Nat.ne_of_lt hlt]
  simp [checkT, peekT, hE, hg, ht]

theorem advanceT_snd_of_not_end {ts : List Token} {cur : Nat}
    (h : isAtEnd ts cur = false) : (advanceT ts cur).2 = cur + 1 := by
  simp [advanceT, h]

theorem advanceT_snd_of_end {ts : List Token} {cur : Nat}
    (h : isAtEnd ts cur = true) : (advanceT ts cur).2 = cur := by
  simp [advanceT, h]

theorem expectT_true {ts : List Token} {cur : Nat} {tags : List TokenType}
    (h : (expectT ts cur tags).1 = true) : (expectT ts cur tags).2 = cur + 1 := by
  unfold expectT at *
  split at h
  · next hA =>
    rcases List.any_eq_true.mp hA with ⟨tg, _, hc⟩
    simp [advanceT_snd_of_not_end (checkT_true hc).1, hA]
  · simp at h

theorem expectT_false {ts : List Token} {cur : Nat} {tags : List TokenType}
    (h : (expectT ts cur tags).1 = false) : (expectT ts cur tags).2 = cur := by
  unfold expectT at *
  split at h
  · simp at h
  · next hA => simp [hA]

theorem expectT_le {ts : List Token} {cur : Nat} {tags : List TokenType} :
    cur ≤ (expectT ts cur tags).2 := by
  cases h : (expectT ts cur tags).1
  · rw [expectT_false h]
  · rw [expectT_true h]; omega

theorem expectT_snd_cases (ts : List Token) (cur : Nat) (tags : List TokenType) :
    (expectT ts cur tags).2 = cur ∨ (expectT ts cur tags).2 = cur + 1 := by
  cases h : (expectT ts cur tags).1
  · exact Or.inl (expectT_false h)
  · exact Or.inr (expectT_true h)

theorem expectT_of_check {ts : List Token} {cur : Nat} {tag : TokenType}
    {tags : List TokenType} (hc : checkT ts cur tag = true) (hm : tag ∈ tags) :
    expectT ts cur tags = (true, cur + 1) := by
  have hA : tags.any (fun t => checkT ts cur t) = true :=
    List.any_eq_true.mpr ⟨tag, hm, hc⟩
  simp [expectT, hA, advanceT_snd_of_not_end (checkT_true hc).1]

theorem consumeT_eq_ok {ts : List Token} {cur cur1 : Nat} {tag : TokenType} {t : Token}
    (h : consumeT ts cur tag = .ok t cur1) :
    ts[cur]? = some t ∧ t.tag = tag ∧ cur1 = cur + 1 := by
  unfold consumeT at h
  split at h
  · next hc =>
    rcases checkT_true hc with ⟨hE, t0, hg, htag⟩
    rcases List.getElem?_eq_some.mp hg with ⟨hlt, _⟩
    have hadv : advanceT ts cur = (some t0, cur + 1) := by
      simp [advanceT, hE, previousT, hg]
    rw [hadv] at h
    cases h
    exact ⟨hg, htag, rfl⟩
  · cases h

theorem consumeT_of_peek {ts : List Token} {cur : Nat} {t : Token} {tag : TokenType}
    (hg : ts[cur]? = some t) (ht : t.tag = tag) :
    consumeT ts cur tag = .ok t (cur + 1) := by
  have hc := checkT_of_peek hg ht
  have hE := (checkT_true hc).1
  simp [consumeT, hc, advanceT, hE, previousT, hg]

theorem consumeT_ok_le {ts : List Token} {cur cur1 : Nat} {tag : TokenType} {t : Token}
    (h : consumeT ts cur tag = .ok t cur1) : cur ≤ cur1 := by
  rcases consumeT_eq_ok h with ⟨_, _, rfl⟩
  omega

/-- Cursor monotonicity of every parsing routine at a given fuel: a
successful return never moves the cursor backwards. -/
structure MonoAll (f : Nat) : Prop where
  declM : ∀ ts cur v cur1, declaration ts f cur = .ok v cur1 → cur ≤ cur1
  stmtM : ∀ ts cur v cur1, statement ts f cur = .ok v cur1 → cur ≤ cur1
  blockM : ∀ ts cur v cur1, block ts f cur = .ok v cur1 → cur ≤ cur1
  exprStmtM : ∀ ts cur v cur1, expression_statement ts f cur = .ok v cur1 → cur ≤ cur1
  printM : ∀ ts cur v cur1, print ts f cur = .ok v cur1 → cur ≤ cur1
  ifstmtM : ∀ ts cur v cur1, ifstmt ts f cur = .ok v cur1 → cur ≤ cur1
  varM : ∀ ts cur v cur1, var ts f cur = .ok v cur1 → cur ≤ cur1
  functionM : ∀ ts cur v cur1, function ts f cur = .ok v cur1 → cur ≤ cur1
  paramsM : ∀ ts cur v cur1, params ts f cur = .ok v cur1 → cur ≤ cur1
  exprM : ∀ ts cur v cur1, expression ts f cur = .ok v cur1 → cur ≤ cur1
  assignM : ∀ ts cur v cur1, assignment ts f cur = .ok v cur1 → cur ≤ cur1
  eqM : ∀ ts cur v cur1, equality ts f cur = .ok v cur1 → cur ≤ cur1
  eqLoopM : ∀ ts e cur v cur1, eqLoop ts f e cur = .ok v cur1 → cur ≤ cur1
  cmpM : ∀ ts cur v cur1, comparison ts f cur = .ok v cur1 → cur ≤ cur1
  cmpLoopM : ∀ ts e cur v cur1, cmpLoop ts f e cur = .ok v cur1 → cur ≤ cur1
  termM : ∀ ts cur v cur1, term ts f cur = .ok v cur1 → cur ≤ cur1
  termLoopM : ∀ ts e cur v cur1, termLoop ts f e cur = .ok v cur1 → cur ≤ cur1
  factorM : ∀ ts cur v cur1, factor ts f cur = .ok v cur1 → cur ≤ cur1
  factorLoopM : ∀ ts e cur v cur1, factorLoop ts f e cur = .ok v cur1 → cur ≤ cur1
  unaryM : ∀ ts cur v cur1, unary ts f cur = .ok v cur1 → cur ≤ cur1
  callM : ∀ ts cur v cur1, call ts f cur = .ok v cur1 → cur ≤ cur1
  callLoopM : ∀ ts e cur v cur1, callLoop ts f e cur = .ok v cur1 → cur ≤ cur1
  finishCallM : ∀ ts e cur v cur1, finish_call ts f e cur = .ok v cur1 → cur ≤ cur1
  argsM : ∀ ts cur v cur1, arguments ts f cur = .ok v cur1 → cur ≤ cur1
  primaryM : ∀ ts cur v cur1, primary ts f cur = .ok v cur1 → cur ≤ cur1

theorem monoAll : ∀ f, MonoAll f := by
  intro f
  induction f with
  | zero =>
    constructor <;>
      · intros ts
        intros
        simp_all [declaration, statement, block, expression_statement, print, ifstmt,
          var, function, params, expression, assignment, equality, eqLoop, comparison,
          cmpLoop, term, termLoop, factor, factorLoop, unary, call, callLoop,
          finish_call, arguments, primary]
  | succ f ih =>
    refine ⟨?_, ?_, ?_, ?_, ?_, ?_, ?_, ?_, ?_, ?_, ?_, ?_, ?_, ?_, ?_, ?_, ?_, ?_,
      ?_, ?_, ?_, ?_, ?_, ?_, ?_⟩
    -- declaration
    · intro ts cur v cur1 h
      simp only [declaration] at h
      split at h
      · exact le_trans expectT_le (ih.functionM _ _ _ _ h)
      · split at h
        · exact le_trans expectT_le (ih.varM _ _ _ _ h)
        · exact ih.stmtM _ _ _ _ h
    -- statement
    · intro ts cur v cur1 h
      simp only [statement] at h
      split at h
      · exact le_trans expectT_le (ih.ifstmtM _ _ _ _ h)
      · split at h
        · exact le_trans expectT_le (ih.printM _ _ _ _ h)
        · split at h
          · split at h
            · next hb =>
              cases h
              exact le_trans expectT_le (ih.blockM _ _ _ _ hb)
            · exact Res.noConfusion h
            · exact Res.noConfusion h
          · exact ih.exprStmtM _ _ _ _ h
    -- block
    · intro ts cur v cur1 h
      simp only [block] at h
      split at h
      · split at h
        · next hd =>
          split at h
          · next hb =>
            cases h
            exact le_trans (ih.declM _ _ _ _ hd) (ih.blockM _ _ _ _ hb)
          · exact Res.noConfusion h
          · exact Res.noConfusion h
        · exact Res.noConfusion h
        · exact Res.noConfusion h
      · split at h
        · next hc =>
          cases h
          exact consumeT_ok_le hc
        · exact Res.noConfusion h
        · exact Res.noConfusion h
    -- expression_statement
    · intro ts cur v cur1 h
      simp only [expression_statement] at h
      split at h
      · next he =>
        cases h
        exact ih.exprM _ _ _ _ he
      · exact Res.noConfusion h
      · exact Res.noConfusion h
    -- print
    · intro ts cur v cur1 h
      simp only [print] at h
      split at h
      · next he =>
        cases h
        exact ih.exprM _ _ _ _ he
      · exact Res.noConfusion h
      · exact Res.noConfusion h
    -- ifstmt
    · intro ts cur v cur1 h
      simp only [ifstmt] at h
      split at h
      · next hc1 =>
        split at h
        · next he =>
          split at h
          · next hc2 =>
            split at h
            · next hs1 =>
              split at h
              · next hElse =>
                split at h
                · next hs2 =>
                  cases h
                  have g1 := consumeT_ok_le hc1
                  have g2 := ih.exprM _ _ _ _ he
                  have g3 := consumeT_ok_le hc2
                  have g4 := ih.stmtM _ _ _ _ hs1
                  have g5 := expectT_true hElse
                  have g6 := ih.stmtM _ _ _ _ hs2
                  omega
                · exact Res.noConfusion h
                · exact Res.noConfusion h
              · cases h
                have g1 := consumeT_ok_le hc1
                have g2 := ih.exprM _ _ _ _ he
                have g3 := consumeT_ok_le hc2
                have g4 := ih.stmtM _ _ _ _ hs1
                omega
            · exact Res.noConfusion h
            · exact Res.noConfusion h
          · exact Res.noConfusion h
        · exact Res.noConfusion h
        · exact Res.noConfusion h
      · exact Res.noConfusion h
    -- var
    · intro ts cur v cur1 h
      simp only [var] at h
      split at h
      · next hc1 =>
        split at h
        · next hEq =>
          split at h
          · next he =>
            cases h
            have g1 := consumeT_ok_le hc1
            have g2 := expectT_true hEq
            have g3 := ih.exprM _ _ _ _ he
            omega
          · exact Res.noConfusion h
          · exact Res.noConfusion h
        · exact Res.noConfusion h
      · exact Res.noConfusion h
    -- function
    · intro ts cur v cur1 h
      simp only [function] at h
      split at h
      · next hc1 =>
        split at h
        · next hc2 =>
          split at h
          · next hp =>
            split at h
            · next hc3 =>
              split at h
              · next hc4 =>
                split at h
                · next hb =>
                  cases h
                  have g1 := consumeT_ok_le hc1
                  have g2 := consumeT_ok_le hc2
                  have g4 := consumeT_ok_le hc3
                  have g5 := consumeT_ok_le hc4
                  have g6 := ih.blockM _ _ _ _ hb
                  split at hp
                  · have g3 := ih.paramsM _ _ _ _ hp
                    omega
                  · cases hp
                    omega
                · exact Res.noConfusion h
                · exact Res.noConfusion h
              · exact Res.noConfusion h
            · exact Res.noConfusion h
          · exact Res.noConfusion h
          · exact Res.noConfusion h
        · exact Res.noConfusion h
      · exact Res.noConfusion h
    -- params
    · intro ts cur v cur1 h
      simp only [params] at h
      split at h
      · next hc1 =>
        split at h
        · next hComma =>
          split at h
          · next hp =>
            cases h
            have g1 := consumeT_ok_le hc1
            have g2 := expectT_true hComma
            have g3 := ih.paramsM _ _ _ _ hp
            omega
          · exact Res.noConfusion h
          · exact Res.noConfusion h
        · next =>
          cases h
          exact consumeT_ok_le hc1
      · exact Res.noConfusion h
    -- expression
    · intro ts cur v cur1 h
      simp only [expression] at h
      exact ih.assignM _ _ _ _ h
    -- assignment
    · intro ts cur v cur1 h
      simp only [assignment] at h
      split at h
      · next he =>
        split at h
        · next hEq =>
          split at h
          · next ha =>
            split at h
            · cases h
              have g1 := ih.eqM _ _ _ _ he
              have g2 := expectT_true hEq
              have g3 := ih.assignM _ _ _ _ ha
              omega
            · exact Res.noConfusion h
          · exact Res.noConfusion h
          · exact Res.noConfusion h
        · cases h
          exact ih.eqM _ _ _ _ he
      · exact Res.noConfusion h
      · exact Res.noConfusion h
    -- equality
    · intro ts cur v cur1 h
      simp only [equality] at h
      split at h
      · next he => exact le_trans (ih.cmpM _ _ _ _ he) (ih.eqLoopM _ _ _ _ _ h)
      · exact Res.noConfusion h
      · exact Res.noConfusion h
    -- eqLoop
    · intro ts e cur v cur1 h
      simp only [eqLoop] at h
      split at h
      · next hOp =>
        split at h
        · split at h
          · next hc =>
            have g1 := expectT_true hOp
            have g2 := ih.cmpM _ _ _ _ hc
            have g3 := ih.eqLoopM _ _ _ _ _ h
            omega
          · exact Res.noConfusion h
          · exact Res.noConfusion h
        · exact Res.noConfusion h
      · cases h
        exact le_refl _
    -- comparison
    · intro ts cur v cur1 h
      simp only [comparison] at h
      split at h
      · next ht => exact le_trans (ih.termM _ _ _ _ ht) (ih.cmpLoopM _ _ _ _ _ h)
      · exact Res.noConfusion h
      · exact Res.noConfusion h
    -- cmpLoop
    · intro ts e cur v cur1 h
      simp only [cmpLoop] at h
      split at h
      · next hOp =>
        split at h
        · split at h
          · next ht =>
            have g1 := expectT_true hOp
            have g2 := ih.termM _ _ _ _ ht
            have g3 := ih.cmpLoopM _ _ _ _ _ h
            omega
          · exact Res.noConfusion h
          · exact Res.noConfusion h
        · exact Res.noConfusion h
      · cases h
        exact le_refl _
    -- term
    · intro ts cur v cur1 h
      simp only [term] at h
      split at h
      · next hf => exact le_trans (ih.factorM _ _ _ _ hf) (ih.termLoopM _ _ _ _ _ h)
      · exact Res.noConfusion h
      · exact Res.noConfusion h
    -- termLoop
    · intro ts e cur v cur1 h
      simp only [termLoop] at h
      split at h
      · next hOp =>
        split at h
        · split at h
          · next hf =>
            have g1 := expectT_true hOp
            have g2 := ih.factorM _ _ _ _ hf
            have g3 := ih.termLoopM _ _ _ _ _ h
            omega
          · exact Res.noConfusion h
          · exact Res.noConfusion h
        · exact Res.noConfusion h
      · cases h
        exact le_refl _
    -- factor
    · intro ts cur v cur1 h
      simp only [factor] at h
      split at h
      · next hu => exact le_trans (ih.unaryM _ _ _ _ hu) (ih.factorLoopM _ _ _ _ _ h)
      · exact Res.noConfusion h
      · exact Res.noConfusion h
    -- factorLoop
    · intro ts e cur v cur1 h
      simp only [factorLoop] at h
      split at h
      · next hOp =>
        split at h
        · split at h
          · next hu =>
            have g1 := expectT_true hOp
            have g2 := ih.unaryM _ _ _ _ hu
            have g3 := ih.factorLoopM _ _ _ _ _ h
            omega
          · exact Res.noConfusion h
          · exact Res.noConfusion h
        · exact Res.noConfusion h
      · cases h
        exact le_refl _
    -- unary
    · intro ts cur v cur1 h
      simp only [unary] at h
      split at h
      · next hOp =>
        split at h
        · split at h
          · next hu =>
            cases h
            have g1 := expectT_true hOp
            have g2 := ih.unaryM _ _ _ _ hu
            omega
          · exact Res.noConfusion h
          · exact Res.noConfusion h
        · exact Res.noConfusion h
      · exact ih.callM _ _ _ _ h
    -- call
    · intro ts cur v cur1 h
      simp only [call] at h
      split at h
      · next hp => exact le_trans (ih.primaryM _ _ _ _ hp) (ih.callLoopM _ _ _ _ _ h)
      · exact Res.noConfusion h
      · exact Res.noConfusion h
    -- callLoop
    · intro ts e cur v cur1 h
      simp only [callLoop] at h
      split at h
      · next hLp =>
        split at h
        · next hf =>
          have g1 := expectT_true hLp
          have g2 := ih.finishCallM _ _ _ _ _ hf
          have g3 := ih.callLoopM _ _ _ _ _ h
          omega
        · exact Res.noConfusion h
        · exact Res.noConfusion h
      · cases h
        exact le_refl _
    -- finish_call
    · intro ts e cur v cur1 h
      simp only [finish_call] at h
      split at h
      · next ha =>
        split at h
        · next hc =>
          cases h
          have g2 := consumeT_ok_le hc
          split at ha
          · have g1 := ih.argsM _ _ _ _ ha
            omega
          · cases ha
            omega
        · exact Res.noConfusion h
      · exact Res.noConfusion h
      · exact Res.noConfusion h
    -- arguments
    · intro ts cur v cur1 h
      simp only [arguments] at h
      split at h
      · next he =>
        split at h
        · next hComma =>
          split at h
          · next ha =>
            cases h
            have g1 := ih.exprM _ _ _ _ he
            have g2 := expectT_true hComma
            have g3 := ih.argsM _ _ _ _ ha
            omega
          · exact Res.noConfusion h
          · exact Res.noConfusion h
        · cases h
          exact ih.exprM _ _ _ _ he
      · exact Res.noConfusion h
      · exact Res.noConfusion h
    -- primary
    · intro ts cur v cur1 h
      simp only [primary] at h
      split at h
      · cases h
        exact expectT_le
      · split at h
        · cases h
          exact expectT_le
        · split at h
          · split at h
            · cases h
              exact expectT_le
            · exact Res.noConfusion h
          · split at h
            · next hLp =>
              split at h
              · next he =>
                split at h
                · next hc =>
                  cases h
                  have g1 := expectT_true hLp
                  have g2 := ih.exprM _ _ _ _ he
                  have g3 := consumeT_ok_le hc
                  omega
                · exact Res.noConfusion h
              · exact Res.noConfusion h
              · exact Res.noConfusion h
            · split at h
              · split at h
                · cases h
                  exact expectT_le
                · exact Res.noConfusion h
              · cases h
                exact le_refl _

theorem parse_mono : ∀ f ts cur v cur1, parse ts f cur = .ok v cur1 → cur ≤ cur1 := by
  intro f
  induction f with
  | zero => intro ts cur v cur1 h; simp [parse] at h
  | succ f ih =>
    intro ts cur v cur1 h
    simp only [parse] at h
    split at h
    · cases h
      exact le_refl _
    · split at h
      · next hd =>
        split at h
        · next hp =>
          cases h
          exact le_trans ((monoAll f).declM _ _ _ _ hd) (ih _ _ _ _ hp)
        · exact Res.noConfusion h
        · exact Res.noConfusion h
      · exact Res.noConfusion h
      · exact Res.noConfusion h

/-- Progress of the parsing routines at a given fuel: a successful return
strictly advances the cursor, except when the produced value is the Mark
sentinel (for the expression routines), a value carried over unchanged
(for the operator loops), or the statement wrapper around Mark (for
statement, expression statement and declaration). -/
structure ProgAll (f : Nat) : Prop where
  primaryP : ∀ ts cur v cur1, primary ts f cur = .ok v cur1 → cur < cur1 ∨ v = .Mark
  callLoopP : ∀ ts e cur v cur1, callLoop ts f e cur = .ok v cur1 →
    (v = e ∧ cur1 = cur) ∨ cur < cur1
  callP : ∀ ts cur v cur1, call ts f cur = .ok v cur1 → cur < cur1 ∨ v = .Mark
  unaryP : ∀ ts cur v cur1, unary ts f cur = .ok v cur1 → cur < cur1 ∨ v = .Mark
  factorLoopP : ∀ ts e cur v cur1, factorLoop ts f e cur = .ok v cur1 →
    (v = e ∧ cur1 = cur) ∨ cur < cur1
  factorP : ∀ ts cur v cur1, factor ts f cur = .ok v cur1 → cur < cur1 ∨ v = .Mark
  termLoopP : ∀ ts e cur v cur1, termLoop ts f e cur = .ok v cur1 →
    (v = e ∧ cur1 = cur) ∨ cur < cur1
  termP : ∀ ts cur v cur1, term ts f cur = .ok v cur1 → cur < cur1 ∨ v = .Mark
  cmpLoopP : ∀ ts e cur v cur1, cmpLoop ts f e cur = .ok v cur1 →
    (v = e ∧ cur1 = cur) ∨ cur < cur1
  cmpP : ∀ ts cur v cur1, comparison ts f cur = .ok v cur1 → cur < cur1 ∨ v = .Mark
  eqLoopP : ∀ ts e cur v cur1, eqLoop ts f e cur = .ok v cur1 →
    (v = e ∧ cur1 = cur) ∨ cur < cur1
  eqP : ∀ ts cur v cur1, equality ts f cur = .ok v cur1 → cur < cur1 ∨ v = .Mark
  assignP : ∀ ts cur v cur1, assignment ts f cur = .ok v cur1 → cur < cur1 ∨ v = .Mark
  exprP : ∀ ts cur v cur1, expression ts f cur = .ok v cur1 → cur < cur1 ∨ v = .Mark
  exprStmtP : ∀ ts cur v cur1, expression_statement ts f cur = .ok v cur1 →
    cur < cur1 ∨ v = .Expression .Mark
  stmtP : ∀ ts cur v cur1, statement ts f cur = .ok v cur1 →
    cur < cur1 ∨ v = .Expression .Mark
  declP : ∀ ts cur v cur1, declaration ts f cur = .ok v cur1 →
    cur < cur1 ∨ v = .Expression .Mark

theorem progAll : ∀ f, ProgAll f := by
  intro f
  induction f with
  | zero =>
    constructor <;>
      · intros ts
        intros
        simp_all [declaration, statement, expression_statement, expression, assignment,
          equality, eqLoop, comparison, cmpLoop, term, termLoop, factor, factorLoop,
          unary, call, callLoop, primary]
  | succ f ih =>
    refine ⟨?_, ?_, ?_, ?_, ?_, ?_, ?_, ?_, ?_, ?_, ?_, ?_, ?_, ?_, ?_, ?_, ?_⟩
    -- primary
    · intro ts cur v cur1 h
      simp only [primary] at h
      split at h
      · next hF =>
        cases h
        left
        rw [expectT_true hF]
        omega
      · split at h
        · next hT =>
          cases h
          left
          rw [expectT_true hT]
          omega
        · split at h
          · next hN =>
            split at h
            · cases h
              left
              rw [expectT_true hN]
              omega
            · exact Res.noConfusion h
          · split at h
            · next hLp =>
              split at h
              · next he =>
                split at h
                · next hc =>
                  cases h
                  left
                  have g1 := expectT_true hLp
                  have g2 := (monoAll f).exprM _ _ _ _ he
                  have g3 := consumeT_ok_le hc
                  omega
                · exact Res.noConfusion h
              · exact Res.noConfusion h
              · exact Res.noConfusion h
            · split at h
              · next hI =>
                split at h
                · cases h
                  left
                  rw [expectT_true hI]
                  omega
                · exact Res.noConfusion h
              · cases h
                right
                rfl
    -- callLoop
    · intro ts e cur v cur1 h
      simp only [callLoop] at h
      split at h
      · next hLp =>
        split at h
        · next hf =>
          right
          have g1 := expectT_true hLp
          have g2 := (monoAll f).finishCallM _ _ _ _ _ hf
          rcases ih.callLoopP _ _ _ _ _ h with ⟨_, rfl⟩ | hlt <;> omega
        · exact Res.noConfusion h
        · exact Res.noConfusion h
      · cases h
        exact Or.inl ⟨rfl, rfl⟩
    -- call
    · intro ts cur v cur1 h
      simp only [call] at h
      split at h
      · next hp =>
        have hm := (monoAll f).primaryM _ _ _ _ hp
        rcases ih.callLoopP _ _ _ _ _ h with ⟨rfl, rfl⟩ | hlt
        · exact ih.primaryP _ _ _ _ hp
        · left
          omega
      · exact Res.noConfusion h
      · exact Res.noConfusion h
    -- unary
    · intro ts cur v cur1 h
      simp only [unary] at h
      split at h
      · next hOp =>
        split at h
        · split at h
          · next hu =>
            cases h
            left
            have g1 := expectT_true hOp
            have g2 := (monoAll f).unaryM _ _ _ _ hu
            omega
          · exact Res.noConfusion h
          · exact Res.noConfusion h
        · exact Res.noConfusion h
      · exact ih.callP _ _ _ _ h
    -- factorLoop
    · intro ts e cur v cur1 h
      simp only [factorLoop] at h
      split at h
      · next hOp =>
        split at h
        · split at h
          · next hu =>
            right
            have g1 := expectT_true hOp
            have g2 := (monoAll f).unaryM _ _ _ _ hu
            rcases ih.factorLoopP _ _ _ _ _ h with ⟨_, rfl⟩ | hlt <;> omega
          · exact Res.noConfusion h
          · exact Res.noConfusion h
        · exact Res.noConfusion h
      · cases h
        exact Or.inl ⟨rfl, rfl⟩
    -- factor
    · intro ts cur v cur1 h
      simp only [factor] at h
      split at h
      · next hu =>
        have hm := (monoAll f).unaryM _ _ _ _ hu
        rcases ih.factorLoopP _ _ _ _ _ h with ⟨rfl, rfl⟩ | hlt
        · exact ih.unaryP _ _ _ _ hu
        · left
          omega
      · exact Res.noConfusion h
      · exact Res.noConfusion h
    -- termLoop
    · intro ts e cur v cur1 h
      simp only [termLoop] at h
      split at h
      · next hOp =>
        split at h
        · split at h
          · next hf1 =>
            right
            have g1 := expectT_true hOp
            have g2 := (monoAll f).factorM _ _ _ _ hf1
            rcases ih.termLoopP _ _ _ _ _ h with ⟨_, rfl⟩ | hlt <;> omega
          · exact Res.noConfusion h
          · exact Res.noConfusion h
        · exact Res.noConfusion h
      · cases h
        exact Or.inl ⟨rfl, rfl⟩
    -- term
    · intro ts cur v cur1 h
      simp only [term] at h
      split at h
      · next hf1 =>
        have hm := (monoAll f).factorM _ _ _ _ hf1
        rcases ih.termLoopP _ _ _ _ _ h with ⟨rfl, rfl⟩ | hlt
        · exact ih.factorP _ _ _ _ hf1
        · left
          omega
      · exact Res.noConfusion h
      · exact Res.noConfusion h
    -- cmpLoop
    · intro ts e cur v cur1 h
      simp only [cmpLoop] at h
      split at h
      · next hOp =>
        split at h
        · split at h
          · next ht1 =>
            right
            have g1 := expectT_true hOp
            have g2 := (monoAll f).termM _ _ _ _ ht1
            rcases ih.cmpLoopP _ _ _ _ _ h with ⟨_, rfl⟩ | hlt <;> omega
          · exact Res.noConfusion h
          · exact Res.noConfusion h
        · exact Res.noConfusion h
      · cases h
        exact Or.inl ⟨rfl, rfl⟩
    -- comparison
    · intro ts cur v cur1 h
      simp only [comparison] at h
      split at h
      · next ht1 =>
        have hm := (monoAll f).termM _ _ _ _ ht1
        rcases ih.cmpLoopP _ _ _ _ _ h with ⟨rfl, rfl⟩ | hlt
        · exact ih.termP _ _ _ _ ht1
        · left
          omega
      · exact Res.noConfusion h
      · exact Res.noConfusion h
    -- eqLoop
    · intro ts e cur v cur1 h
      simp only [eqLoop] at h
      split at h
      · next hOp =>
        split at h
        · split at h
          · next hc1 =>
            right
            have g1 := expectT_true hOp
            have g2 := (monoAll f).cmpM _ _ _ _ hc1
            rcases ih.eqLoopP _ _ _ _ _ h with ⟨_, rfl⟩ | hlt <;> omega
          · exact Res.noConfusion h
          · exact Res.noConfusion h
        · exact Res.noConfusion h
      · cases h
        exact Or.inl ⟨rfl, rfl⟩
    -- equality
    · intro ts cur v cur1 h
      simp only [equality] at h
      split at h
      · next hc1 =>
        have hm := (monoAll f).cmpM _ _ _ _ hc1
        rcases ih.eqLoopP _ _ _ _ _ h with ⟨rfl, rfl⟩ | hlt
        · exact ih.cmpP _ _ _ _ hc1
        · left
          omega
      · exact Res.noConfusion h
      · exact Res.noConfusion h
    -- assignment
    · intro ts cur v cur1 h
      simp only [assignment] at h
      split at h
      · next he =>
        split at h
        · next hEq =>
          split at h
          · next ha =>
            split at h
            · cases h
              left
              have g1 := (monoAll f).eqM _ _ _ _ he
              have g2 := expectT_true hEq
              have g3 := (monoAll f).assignM _ _ _ _ ha
              omega
            · exact Res.noConfusion h
          · exact Res.noConfusion h
          · exact Res.noConfusion h
        · cases h
          exact ih.eqP _ _ _ _ he
      · exact Res.noConfusion h
      · exact Res.noConfusion h
    -- expression
    · intro ts cur v cur1 h
      simp only [expression] at h
      exact ih.assignP _ _ _ _ h
    -- expression_statement
    · intro ts cur v cur1 h
      simp only [expression_statement] at h
      split at h
      · next he =>
        cases h
        rcases ih.exprP _ _ _ _ he with hlt | rfl
        · exact Or.inl hlt
        · exact Or.inr rfl
      · exact Res.noConfusion h
      · exact Res.noConfusion h
    -- statement
    · intro ts cur v cur1 h
      simp only [statement] at h
      split at h
      · next hIf =>
        left
        have g1 := expectT_true hIf
        have g2 := (monoAll f).ifstmtM _ _ _ _ h
        omega
      · split at h
        · next hPr =>
          left
          have g1 := expectT_true hPr
          have g2 := (monoAll f).printM _ _ _ _ h
          omega
        · split at h
          · next hBr =>
            split at h
            · next hb =>
              cases h
              left
              have g1 := expectT_true hBr
              have g2 := (monoAll f).blockM _ _ _ _ hb
              omega
            · exact Res.noConfusion h
            · exact Res.noConfusion h
          · exact ih.exprStmtP _ _ _ _ h
    -- declaration
    · intro ts cur v cur1 h
      simp only [declaration] at h
      split at h
      · next hFn =>
        left
        have g1 := expectT_true hFn
        have g2 := (monoAll f).functionM _ _ _ _ h
        omega
      · split at h
        · next hVar =>
          left
          have g1 := expectT_true hVar
          have g2 := (monoAll f).varM _ _ _ _ h
          omega
        · exact ih.stmtP _ _ _ _ h

def idTok (s : String) : Token := ⟨.IDENTIFIER, s, .Nil, 1⟩

def opTok (k : TokenType) (s : String) : Token := ⟨k, s, .Nil, 1⟩

def numTok (n : Int) : Token := ⟨.NUMBER, toString n, .Num n, 1⟩

/-- A single RIGHT_PAREN token: no primary alternative matches it, so an
expression position reached at it produces the Mark sentinel without
consuming anything. -/
def rparenTok : Token := ⟨.RIGHT_PAREN, ")", .Nil, 1⟩

theorem declaration_rp (f : Nat) :
    declaration [rparenTok] (f + 12) 0 = .ok (.Expression .Mark) 0 := rfl

theorem declaration_rp_small (f : Nat) (hf : f < 12) :
    declaration [rparenTok] f 0 = .fuelOut := by
  interval_cases f <;> rfl

/-- The four precedence levels of binary operators, lowest first. -/
inductive Level where
  | equality
  | comparison
  | term
  | factor
deriving DecidableEq, Repr

/-- The operator kinds matched by each precedence level, exactly the
argument lists the source passes to expect. -/
def levelOps : Level → List TokenType
  | .equality => [.BANG_EQUAL, .EQUAL_EQUAL]
  | .comparison => [.GREATER, .GREATER_EQUAL, .LESS, .LESS_EQUAL]
  | .term => [.MINUS, .PLUS]
  | .factor => [.SLASH, .STAR]

/-- Numeric rank of a precedence level: equality < comparison < term < factor. -/
def levelRank : Level → Nat
  | .equality => 0
  | .comparison => 1
  | .term => 2
  | .factor => 3

/-- Claim C1: the claim states that parse terminates on every finite token
vector, in particular where an expression position is reached with no
valid primary token.  The code does the opposite there: on the one-token
vector [RIGHT_PAREN], every top-level loop iteration parses
Statement.Expression(Mark) without consuming a token, so the loop never
exits: for every fuel bound the model exhausts its fuel. -/
theorem c1_parse_diverges_on_rparen (f : Nat) : parse [rparenTok] f 0 = .fuelOut := by
  induction f with
  | zero => rfl
  | succ f ih =>
    rcases Nat.lt_or_ge f 12 with hf | hf
    · have hd := declaration_rp_small f hf
      simp [parse, isAtEnd, hd]
    · obtain ⟨g, rfl⟩ := Nat.exists_eq_add_of_le hf
      have hd : declaration [rparenTok] (12 + g) 0 = .ok (.Expression .Mark) 0 := by
        rw [Nat.add_comm]
        exact declaration_rp g
      simp [parse, isAtEnd, hd, ih]

/-- Claim C2, counterexample: on the one-token vector [RIGHT_PAREN] the
statement routine returns successfully with the cursor still at 0, and the
value it produces is a Statement (the wrapper around the Mark sentinel),
not the Mark sentinel expression itself, so the escape clause of the claim
as stated does not apply and strict progress fails. -/
theorem c2_counterexample :
    statement [rparenTok] 11 0 = .ok (.Expression .Mark) 0 ∧ ¬ ((0 : Nat) < 0) :=
  ⟨rfl, by omega⟩

/-- Claim C2 (amended): for every input token vector and fuel, a successful
non-terminal routine strictly advances the cursor unless the value it
produced is the Mark sentinel (for expression, equality, comparison, term,
factor, unary, call, primary) or the statement wrapper
Statement.Expression(Mark) (for declaration and statement). -/
theorem c2_progress_amended :
    (∀ ts f cur v cur1, primary ts f cur = .ok v cur1 → cur < cur1 ∨ v = .Mark)
    ∧ (∀ ts f cur v cur1, call ts f cur = .ok v cur1 → cur < cur1 ∨ v = .Mark)
    ∧ (∀ ts f cur v cur1, unary ts f cur = .ok v cur1 → cur < cur1 ∨ v = .Mark)
    ∧ (∀ ts f cur v cur1, factor ts f cur = .ok v cur1 → cur < cur1 ∨ v = .Mark)
    ∧ (∀ ts f cur v cur1, term ts f cur = .ok v cur1 → cur < cur1 ∨ v = .Mark)
    ∧ (∀ ts f cur v cur1, comparison ts f cur = .ok v cur1 → cur < cur1 ∨ v = .Mark)
    ∧ (∀ ts f cur v cur1, equality ts f cur = .ok v cur1 → cur < cur1 ∨ v = .Mark)
    ∧ (∀ ts f cur v cur1, expression ts f cur = .ok v cur1 → cur < cur1 ∨ v = .Mark)
    ∧ (∀ ts f cur v cur1, statement ts f cur = .ok v cur1 →
        cur < cur1 ∨ v = .Expression .Mark)
    ∧ (∀ ts f cur v cur1, declaration ts f cur = .ok v cur1 →
        cur < cur1 ∨ v = .Expression .Mark) := by
  refine ⟨?_, ?_, ?_, ?_, ?_, ?_, ?_, ?_, ?_, ?_⟩ <;> intro ts f cur v cur1 h
  · exact (progAll f).primaryP _ _ _ _ h
  · exact (progAll f).callP _ _ _ _ h
  · exact (progAll f).unaryP _ _ _ _ h
  · exact (progAll f).factorP _ _ _ _ h
  · exact (progAll f).termP _ _ _ _ h
  · exact (progAll f).cmpP _ _ _ _ h
  · exact (progAll f).eqP _ _ _ _ h
  · exact (progAll f).exprP _ _ _ _ h
  · exact (progAll f).stmtP _ _ _ _ h
  · exact (progAll f).declP _ _ _ _ h

/-- Witness for the amended Claim C2, at the one-token vector holding the
identifier x: primary succeeds, and indeed the cursor strictly advanced. -/
theorem c2_progress_amended_witness :
    0 < 1 ∨ (Expression.Var (idTok "x")) = Expression.Mark :=
  c2_progress_amended.1 [idTok "x"] 2 0 (.Var (idTok "x")) 1 rfl

/-- Claim C3: assignment is right-associative: the token sequence
IDENTIFIER a, EQUAL, IDENTIFIER b, EQUAL, IDENTIFIER c parses as an
expression to Assignment(a, Assignment(b, Var(c))), for arbitrary token
payloads. -/
theorem c3_assignment_right_assoc
    (sa sb sc s1 s2 : String) (pa pb pc p1 p2 : Object) (na nb nc n1 n2 : Nat) :
    expression [⟨.IDENTIFIER, sa, pa, na⟩, ⟨.EQUAL, s1, p1, n1⟩,
        ⟨.IDENTIFIER, sb, pb, nb⟩, ⟨.EQUAL, s2, p2, n2⟩,
        ⟨.IDENTIFIER, sc, pc, nc⟩] 20 0
      = .ok (.Assignment ⟨.IDENTIFIER, sa, pa, na⟩
          (.Assignment ⟨.IDENTIFIER, sb, pb, nb⟩
            (.Var ⟨.IDENTIFIER, sc, pc, nc⟩))) 5 := by
  simp [expression, assignment, equality, eqLoop, comparison, cmpLoop, term, termLoop,
    factor, factorLoop, unary, call, callLoop, finish_call, arguments, primary,
    expectT, checkT, isAtEnd, peekT, previousT, advanceT, consumeT]

/-- Claim C4: when an EQUAL follows a left-hand side expression that is not
Expression.Var, the assignment routine never returns an expression; and
whenever the parse of the right-hand side does not run out of fuel (a model
artifact), it fails fatally, modelling the invalid assignment panic. -/
theorem c4_invalid_assignment_target (ts : List Token) (f cur cur1 : Nat) (e : Expression)
    (heq : equality ts f cur = .ok e cur1)
    (hnv : isVarE e = false)
    (hchk : checkT ts cur1 .EQUAL = true) :
    (∀ v c, assignment ts (f + 1) cur ≠ .ok v c)
    ∧ (assignment ts f (cur1 + 1) ≠ .fuelOut → assignment ts (f + 1) cur = .fatal) := by
  have hexp : expectT ts cur1 [.EQUAL] = (true, cur1 + 1) :=
    expectT_of_check hchk (by decide)
  constructor
  · intro v c hok
    cases ha : assignment ts f (cur1 + 1) with
    | ok value c2 =>
      cases e
      case Var t0 => simp [isVarE] at hnv
      all_goals simp [assignment, heq, hexp, ha] at hok
    | fatal => simp [assignment, heq, hexp, ha] at hok
    | fuelOut => simp [assignment, heq, hexp, ha] at hok
  · intro hnf
    cases ha : assignment ts f (cur1 + 1) with
    | ok value c2 =>
      cases e
      case Var t0 => simp [isVarE] at hnv
      all_goals simp [assignment, heq, hexp, ha]
    | fatal => simp [assignment, heq, hexp, ha]
    | fuelOut => exact absurd ha hnf

/-- Witness for Claim C4, at the token sequence for 1 = 2. -/
theorem c4_invalid_assignment_target_witness :
    (∀ v c, assignment [numTok 1, opTok .EQUAL "=", numTok 2] 14 0 ≠ .ok v c)
    ∧ assignment [numTok 1, opTok .EQUAL "=", numTok 2] 14 0 = .fatal := by
  have h := c4_invalid_assignment_target [numTok 1, opTok .EQUAL "=", numTok 2] 13 0 1
    (.Literal (.Num 1)) rfl rfl rfl
  refine ⟨h.1, h.2 ?_⟩
  intro hc
  rw [show assignment [numTok 1, opTok .EQUAL "=", numTok 2] 13 2
      = Res.ok (.Literal (.Num 2)) 3 from rfl] at hc
  exact Res.noConfusion hc

/-- Claim C5: dangling else binds to the nearest if: the token sequence
for if ( a ) if ( b ) print c else print d parses to an If whose then
branch is the inner If carrying the else branch, while the outer If has
none, for arbitrary identifier payloads. -/
theorem c5_dangling_else
    (sa sb sc sd : String) (pa pb pc pd : Object) (na nb nc nd : Nat) :
    statement [opTok .IF "if", opTok .LEFT_PAREN "(", ⟨.IDENTIFIER, sa, pa, na⟩,
        opTok .RIGHT_PAREN ")", opTok .IF "if", opTok .LEFT_PAREN "(",
        ⟨.IDENTIFIER, sb, pb, nb⟩, opTok .RIGHT_PAREN ")", opTok .PRINT "print",
        ⟨.IDENTIFIER, sc, pc, nc⟩, opTok .ELSE "else", opTok .PRINT "print",
        ⟨.IDENTIFIER, sd, pd, nd⟩] 30 0
      = .ok (.If (.Var ⟨.IDENTIFIER, sa, pa, na⟩)
          (.If (.Var ⟨.IDENTIFIER, sb, pb, nb⟩)
            (.Print (.Var ⟨.IDENTIFIER, sc, pc, nc⟩))
            (some (.Print (.Var ⟨.IDENTIFIER, sd, pd, nd⟩))))
          none) 13 := by
  simp [statement, ifstmt, print, expression_statement, expression, assignment,
    equality, eqLoop, comparison, cmpLoop, term, termLoop, factor, factorLoop,
    unary, call, callLoop, finish_call, arguments, primary, opTok,
    expectT, checkT, isAtEnd, peekT, previousT, advanceT, consumeT]

/-- Claim C6: call chaining is left-associative and each Call captures the
closing paren token of its own argument list: the token sequence for
f(a)(b) parses to Call(Call(Var f, [Var a]), [Var b]), the inner Call
holding the first RIGHT_PAREN token and the outer the second, for
arbitrary token payloads. -/
theorem c6_call_chain
    (sf sa sb sr1 sr2 : String) (pf pa pb pr1 pr2 : Object) (nf na nb nr1 nr2 : Nat) :
    expression [⟨.IDENTIFIER, sf, pf, nf⟩, opTok .LEFT_PAREN "(",
        ⟨.IDENTIFIER, sa, pa, na⟩, ⟨.RIGHT_PAREN, sr1, pr1, nr1⟩,
        opTok .LEFT_PAREN "(", ⟨.IDENTIFIER, sb, pb, nb⟩,
        ⟨.RIGHT_PAREN, sr2, pr2, nr2⟩] 30 0
      = .ok (.Call (.Call (.Var ⟨.IDENTIFIER, sf, pf, nf⟩)
            ⟨.RIGHT_PAREN, sr1, pr1, nr1⟩ [.Var ⟨.IDENTIFIER, sa, pa, na⟩])
          ⟨.RIGHT_PAREN, sr2, pr2, nr2⟩ [.Var ⟨.IDENTIFIER, sb, pb, nb⟩]) 7 := by
  simp [expression, assignment, equality, eqLoop, comparison, cmpLoop, term, termLoop,
    factor, factorLoop, unary, call, callLoop, finish_call, arguments, primary, opTok,
    expectT, checkT, isAtEnd, peekT, previousT, advanceT, consumeT]

/-- Claim C7: a var declaration requires an initializer: after VAR, the
var routine consumes the IDENTIFIER name; if no EQUAL follows it fails
fatally (the var error panic), and if EQUAL follows and the initializer
expression parses, it returns Statement.Var(name, initializer). -/
theorem c7_var_requires_init (ts : List Token) (f cur : Nat) (t : Token)
    (hpeek : peekT ts cur = some t) (hid : t.tag = .IDENTIFIER) :
    (checkT ts (cur + 1) .EQUAL = false → var ts (f + 1) cur = .fatal)
    ∧ (∀ e cur2, checkT ts (cur + 1) .EQUAL = true →
        expression ts f (cur + 1 + 1) = .ok e cur2 →
        var ts (f + 1) cur = .ok (.Var t e) cur2) := by
  have hcons : consumeT ts cur .IDENTIFIER = .ok t (cur + 1) :=
    consumeT_of_peek hpeek hid
  constructor
  · intro hno
    have hexp : expectT ts (cur + 1) [.EQUAL] = (false, cur + 1) := by
      simp [expectT, hno]
    simp [var, hcons, hexp]
  · intro e cur2 hyes hexpr
    have hexp : expectT ts (cur + 1) [.EQUAL] = (true, cur + 1 + 1) :=
      expectT_of_check hyes (by decide)
    simp [var, hcons, hexp, hexpr]

/-- Witness for Claim C7: var x alone fails fatally, while
var x = 1 (with the leading VAR already consumed by declaration) yields
Statement.Var(x, Literal 1). -/
theorem c7_var_requires_init_witness :
    var [idTok "x"] 14 0 = .fatal
    ∧ var [idTok "x", opTok .EQUAL "=", numTok 1] 14 0
        = .ok (.Var (idTok "x") (.Literal (.Num 1))) 3 :=
  ⟨(c7_var_requires_init [idTok "x"] 13 0 (idTok "x") rfl rfl).1 rfl,
   (c7_var_requires_init [idTok "x", opTok .EQUAL "=", numTok 1] 13 0 (idTok "x")
      rfl rfl).2 (.Literal (.Num 1)) 3 rfl rfl⟩

/-- Claim C8: precedence: for identifiers a, b, c and binary operators OP1
of strictly lower precedence level than OP2 (equality < comparison < term
< factor), the sequence a OP1 b OP2 c parses as an expression whose root
is the OP1 node, with left child Var a and right child the OP2 node over
Var b and Var c. -/
theorem c8_precedence (L1 L2 : Level) (g1 g2 : TokenType)
    (h1 : g1 ∈ levelOps L1) (h2 : g2 ∈ levelOps L2)
    (hlt : levelRank L1 < levelRank L2)
    (sa sb sc s1 s2 : String) (pa pb pc p1 p2 : Object) (na nb nc n1 n2 : Nat) :
    expression [⟨.IDENTIFIER, sa, pa, na⟩, ⟨g1, s1, p1, n1⟩,
        ⟨.IDENTIFIER, sb, pb, nb⟩, ⟨g2, s2, p2, n2⟩,
        ⟨.IDENTIFIER, sc, pc, nc⟩] 20 0
      = .ok (.Binary (.Var ⟨.IDENTIFIER, sa, pa, na⟩) ⟨g1, s1, p1, n1⟩
          (.Binary (.Var ⟨.IDENTIFIER, sb, pb, nb⟩) ⟨g2, s2, p2, n2⟩
            (.Var ⟨.IDENTIFIER, sc, pc, nc⟩))) 5 := by
  cases L1 <;> cases L2 <;>
    first
      | exact absurd hlt (by decide)
      | (simp only [levelOps] at h1 h2
         fin_cases h1 <;> fin_cases h2 <;>
           simp [expression, assignment, equality, eqLoop, comparison, cmpLoop, term,
             termLoop, factor, factorLoop, unary, call, callLoop, finish_call,
             arguments, primary, expectT, checkT, isAtEnd, peekT, previousT,
             advanceT, consumeT])

/-- Witness for Claim C8, at a == b + c. -/
theorem c8_precedence_witness :
    expression [idTok "a", opTok .EQUAL_EQUAL "==", idTok "b", opTok .PLUS "+",
        idTok "c"] 20 0
      = .ok (.Binary (.Var (idTok "a")) (opTok .EQUAL_EQUAL "==")
          (.Binary (.Var (idTok "b")) (opTok .PLUS "+") (.Var (idTok "c")))) 5 :=
  c8_precedence .equality .term .EQUAL_EQUAL .PLUS (by decide) (by decide) (by decide)
    "a" "b" "c" "==" "+" .Nil .Nil .Nil .Nil .Nil 1 1 1 1 1

/-- Claim C9: cursor monotonicity: advance increments the cursor by exactly
one when not at end and leaves it unchanged at end; match-any-of leaves it
unchanged or increments it; a successful consume-or-fail increments it by
one; and the cursor never decreases across parse, declaration, or
expression (peek, previous and check take no cursor in and produce none in
this embedding, so they cannot move it). -/
theorem c9_cursor_monotone :
    (∀ ts cur, isAtEnd ts cur = false → (advanceT ts cur).2 = cur + 1)
    ∧ (∀ ts cur, isAtEnd ts cur = true → (advanceT ts cur).2 = cur)
    ∧ (∀ ts cur tags, (expectT ts cur tags).2 = cur ∨ (expectT ts cur tags).2 = cur + 1)
    ∧ (∀ ts cur tag t cur1, consumeT ts cur tag = .ok t cur1 → cur1 = cur + 1)
    ∧ (∀ ts f cur v cur1, parse ts f cur = .ok v cur1 → cur ≤ cur1)
    ∧ (∀ ts f cur v cur1, declaration ts f cur = .ok v cur1 → cur ≤ cur1)
    ∧ (∀ ts f cur v cur1, expression ts f cur = .ok v cur1 → cur ≤ cur1) :=
  ⟨fun _ _ h => advanceT_snd_of_not_end h,
   fun _ _ h => advanceT_snd_of_end h,
   fun ts cur tags => expectT_snd_cases ts cur tags,
   fun _ _ _ _ _ h => (consumeT_eq_ok h).2.2,
   fun ts f cur v cur1 h => parse_mono f ts cur v cur1 h,
   fun ts f cur v cur1 h => (monoAll f).declM ts cur v cur1 h,
   fun ts f cur v cur1 h => (monoAll f).exprM ts cur v cur1 h⟩

/-- Witness for Claim C9, at the one-token vector holding identifier x. -/
theorem c9_cursor_monotone_witness :
    (advanceT [idTok "x"] 0).2 = 0 + 1
    ∧ (advanceT [idTok "x"] 1).2 = 1
    ∧ ((expectT [idTok "x"] 0 [.IDENTIFIER]).2 = 0
        ∨ (expectT [idTok "x"] 0 [.IDENTIFIER]).2 = 0 + 1)
    ∧ (1 : Nat) = 0 + 1
    ∧ (0 : Nat) ≤ 1
    ∧ (0 : Nat) ≤ 1
    ∧ (0 : Nat) ≤ 1 :=
  ⟨c9_cursor_monotone.1 [idTok "x"] 0 rfl,
   c9_cursor_monotone.2.1 [idTok "x"] 1 rfl,
   c9_cursor_monotone.2.2.1 [idTok "x"] 0 [.IDENTIFIER],
   c9_cursor_monotone.2.2.2.1 [idTok "x"] 0 .IDENTIFIER (idTok "x") 1 rfl,
   c9_cursor_monotone.2.2.2.2.1 [idTok "x"] 15 0 [.Expression (.Var (idTok "x"))] 1 rfl,
   c9_cursor_monotone.2.2.2.2.2.1 [idTok "x"] 14 0 (.Expression (.Var (idTok "x"))) 1 rfl,
   c9_cursor_monotone.2.2.2.2.2.2 [idTok "x"] 12 0 (.Var (idTok "x")) 1 rfl⟩

/-- Claim C10: a NIL token in expression position is not parsed as a
literal: whenever the current token has kind NIL (a kind the lexer can
produce, present in TokenType), primary matches no alternative and returns
the Mark sentinel with the cursor unchanged. -/
theorem c10_nil_not_literal (ts : List Token) (cur f : Nat) (t : Token)
    (hpeek : peekT ts cur = some t) (htag : t.tag = .NIL) :
    primary ts (f + 1) cur = .ok .Mark cur := by
  have hlt : cur < ts.length := (List.getElem?_eq_some.mp hpeek).1
  have hE : isAtEnd ts cur = false := by
    simp [isAtEnd, Nat.ne_of_lt hlt]
  have hg : ts[cur]? = some t := hpeek
  have hchk : ∀ k, k ≠ TokenType.NIL → checkT ts cur k = false := by
    intro k hk
    simp only [checkT, peekT, hE, Bool.false_eq_true, if_false, hg, htag]
    rw [beq_eq_false_iff_ne]
    exact fun h => hk h.symm
  have hexp : ∀ tags : List TokenType, (∀ k ∈ tags, k ≠ TokenType.NIL) →
      expectT ts cur tags = (false, cur) := by
    intro tags htags
    have hany : tags.any (fun k => checkT ts cur k) = false := by
      rw [List.any_eq_false]
      intro k hk
      simp [hchk k (htags k hk)]
    simp [expectT, hany]
  have h1 := hexp [.FALSE] (by decide)
  have h2 := hexp [.TRUE] (by decide)
  have h3 := hexp [.NUMBER, .STRING] (by decide)
  have h4 := hexp [.LEFT_PAREN] (by decide)
  have h5 := hexp [.IDENTIFIER] (by decide)
  simp [primary, h1, h2, h3, h4, h5]

/-- Witness for Claim C10, at the one-token vector holding a NIL token. -/
theorem c10_nil_not_literal_witness :
    primary [⟨.NIL, "nil", .Nil, 1⟩] 1 0 = .ok .Mark 0 :=
  c10_nil_not_literal [⟨.NIL, "nil", .Nil, 1⟩] 0 0 ⟨.NIL, "nil", .Nil, 1⟩ rfl rfl


end Lox
